import Mathlib

/-!
Verification development for the `werdl/parse` command-line argument
parsing library (`src/lib.rs`).

The embedding works at the granularity of characters: a Rust `String` is
modelled as `List Char` (the library's own claims only involve ASCII data,
where Rust's byte indices coincide with character indices).  Rust byte-slice
panics (out-of-range `&s[i..]` and `&s[i..=j]` indexing) are modelled by
returning `none` from the function that would panic; a full `parse` run that
panics therefore evaluates to `none`, while a normal run evaluates to
`some r` for the `ParserResult` struct `r`.
-/

/-- Strings are modelled as lists of characters. -/
abbrev Str := List Char

/-- The single-quote character (code 39), one of the two quote toggles of the
tokenizer loop in `Parser::parse`. -/
def squoteChar : Char := Char.ofNat 39

/-- The double-quote character (code 34), the other quote toggle. -/
def dquoteChar : Char := Char.ofNat 34

/-- Mirrors `struct Command { long, short, takes_input, doc }` (lib.rs:8-14). -/
structure Command where
  long : Str
  short : Str
  takes_input : Bool
  doc : Str
deriving Repr, DecidableEq

/-- Mirrors `Command::default()` from `#[derive(Default)]`: empty strings and
`takes_input = false`. -/
def defaultCommand : Command := ⟨[], [], false, []⟩

/-- Mirrors `struct Parser { input, commands, doc_field, name, examples }`
(lib.rs:43-49). -/
structure Parser where
  input : Str
  commands : List Command
  doc_field : Str
  name : Str
  examples : Str
deriving Repr, DecidableEq

/-- Mirrors `struct ParserResult { map, help, error }` (lib.rs:51-56). -/
structure ParserResult where
  map : Option (List (Str × Str))
  help : Option Str
  error : Option Str
deriving Repr, DecidableEq

/-- Mirrors `ParserResult::from_map` (lib.rs:69-75). -/
def ParserResult.from_map (m : List (Str × Str)) : ParserResult :=
  ⟨some m, none, none⟩

/-- Mirrors `ParserResult::from_help` (lib.rs:76-82). -/
def ParserResult.from_help (h : Str) : ParserResult :=
  ⟨none, some h, none⟩

/-- Mirrors `ParserResult::from_error` (lib.rs:83-89). -/
def ParserResult.from_error (e : Str) : ParserResult :=
  ⟨none, none, some e⟩

/-- Mirrors `Parser::new` (lib.rs:93-101). -/
def Parser.new (name doc_field examples : Str) : Parser :=
  ⟨[], [], doc_field, name, examples⟩

/-- Mirrors `Parser::add_command` (lib.rs:103-110): appends a `Command`. -/
def Parser.add_command (p : Parser) (name : Str) (takes_input : Bool)
    (short doc : Str) : Parser :=
  { p with commands := p.commands ++ [⟨name, short, takes_input, doc⟩] }

/-- Mirrors `Parser::search` (lib.rs:112-119): first command whose `long` or
`short` equals the argument.  Takes the command list (the only field of
`self` the Rust method reads). -/
def Parser.search (cmds : List Command) (arg : Str) : Option Command :=
  match cmds with
  | [] => none
  | c :: rest => if arg == c.long || arg == c.short then some c
                 else Parser.search rest arg

/-- Mirrors `Parser::check` (lib.rs:293-300): whether some command's `long` or
`short` equals the argument. -/
def Parser.check (cmds : List Command) (arg : Str) : Bool :=
  cmds.any (fun c => arg == c.long || arg == c.short)

/-- Mirrors Rust `str::starts_with` for a string pattern. -/
def strStarts (p s : Str) : Bool :=
  match p, s with
  | [], _ => true
  | _ :: _, [] => false
  | a :: ps, c :: cs => a == c && strStarts ps cs

/-- Splits a string at the first occurrence of a character, mirroring
`splitn(2, ch)`: the part before the separator, and `some` rest after it
when the separator occurs. -/
def splitOnceAt (sep : Char) : Str → Str × Option Str
  | [] => ([], none)
  | c :: rest =>
    if c == sep then ([], some rest)
    else
      let r := splitOnceAt sep rest
      (c :: r.1, r.2)

/-- Mirrors `Parser::parse_long_arg` (lib.rs:302-311): split on the first
`=`; the key is the pre-`=` part minus its first two characters (the `--`
prefix; `parse` only calls this on arguments starting with `--`, so the Rust
slice `[2..]` is in bounds), the value is the post-`=` part or empty. -/
def Parser.parse_long_arg (arg : Str) : Str × Str :=
  let parts := splitOnceAt (Char.ofNat 61) arg
  (parts.1.drop 2, parts.2.getD [])

/-- Mirrors `Parser::parse_short_arg` (lib.rs:313-321).  The Rust code slices
`&arg[1..=1]`, which panics when the argument has fewer than two characters;
that panic is modelled by `none`.  Otherwise, the key is the `long` of the
command found for the one-character string at index 1 (or the default
command's empty `long`), and the value is `arg[3..]` when the argument is
longer than three characters, else empty. -/
def Parser.parse_short_arg (cmds : List Command) (arg : Str) :
    Option (Str × Str) :=
  match arg with
  | _ :: c :: _ =>
    some (((Parser.search cmds [c]).getD defaultCommand).long,
          if 3 < arg.length then arg.drop 3 else [])
  | _ => none

/-- Mirrors `Parser::parse_flag` (lib.rs:284-291): drop a `--` prefix, else
drop the first character.  The Rust slice `&arg[1..]` panics on the empty
string; that panic is modelled by `none`. -/
def Parser.parse_flag (arg : Str) : Option Str :=
  if strStarts ("--".toList) arg then some (arg.drop 2)
  else
    match arg with
    | [] => none
    | _ :: rest => some rest

/-- The tokenizer loop of `Parser::parse` (lib.rs:126-139), character by
character: quote characters toggle `in_quotes` and are elided; a space
outside quotes flushes the current token when it is non-empty; every other
character is appended to the current token.  Returns the flushed tokens and
the final pending token. -/
def scanArgs : Str → Bool → Str → List Str → List Str × Str
  | [], _, cur, args => (args, cur)
  | c :: rest, inq, cur, args =>
    if c == squoteChar || c == dquoteChar then
      scanArgs rest (!inq) cur args
    else if c == ' ' && !inq then
      if cur.isEmpty then scanArgs rest inq cur args
      else scanArgs rest inq [] (args ++ [cur])
    else scanArgs rest inq (cur ++ [c]) args

/-- Runs the tokenizer loop from its initial state (lib.rs:124-139). -/
def tokenizeArgs (input : Str) : List Str × Str :=
  scanArgs input false [] []

/-- The token list as it stands after the unconditional trailing push
`args.push(cur.clone())` at lib.rs:140 — the list inspected by the help
pre-scan. -/
def tokenize (input : Str) : List Str :=
  (tokenizeArgs input).1 ++ [(tokenizeArgs input).2]

/-- Splits a string on every occurrence of a character, keeping empty
segments (`n` separators give `n + 1` segments). -/
def splitChar (sep : Char) : Str → List Str
  | [] => [[]]
  | c :: rest =>
    if c == sep then [] :: splitChar sep rest
    else
      match splitChar sep rest with
      | s :: ss => (c :: s) :: ss
      | [] => [[c]]

/-- Mirrors Rust `str::lines`: split on newline characters; each segment that
was terminated by a newline loses one trailing carriage return; a final empty
segment (from a trailing newline, or from the empty string) is dropped. -/
def rustLines (s : Str) : List Str :=
  let segs := splitChar (Char.ofNat 10) s
  let front := segs.dropLast.map
    (fun l => if l.getLast? == some (Char.ofNat 13) then l.dropLast else l)
  match segs.getLast? with
  | some [] => front
  | some lastSeg => front ++ [lastSeg]
  | none => front

/-- The per-command line of the global help text (lib.rs:151). -/
def renderCommandLine (c : Command) : Str :=
  "\n  -".toList ++ c.short ++ " --".toList ++ c.long ++ ": ".toList ++ c.doc
    ++ " (".toList
    ++ (if c.takes_input then "takes input".toList else "flag".toList)
    ++ ")\n".toList

/-- The global help text built in the single-token help branch
(lib.rs:148-157). -/
def renderGlobal (p : Parser) : Str :=
  "Usage: ".toList ++ p.name ++ " [OPTIONS] ...\n\n".toList ++ p.doc_field
    ++ "\n".toList
    ++ (p.commands.map renderCommandLine).flatten
    ++ "Examples:\n".toList
    ++ ((rustLines p.examples).map
          (fun l => "    ".toList ++ l ++ "\n".toList)).flatten
    ++ "\n".toList

/-- The single-option help text built in the two-token help branch
(lib.rs:167-177). -/
def renderSingle (c : Command) : Str :=
  "-".toList ++ c.short ++ " --".toList ++ c.long ++ ": ".toList ++ c.doc
    ++ " (".toList
    ++ (if c.takes_input then "takes input".toList else "flag".toList)
    ++ ")\n".toList

/-- Mirrors `HashMap::contains_key` on the association-list model of the
result map. -/
def containsKey (m : List (Str × Str)) (k : Str) : Bool :=
  m.any (fun kv => kv.1 == k)

/-- Mirrors `HashMap::insert` on the association-list model: replace the
value of an existing key, else append the new pair. -/
def insertKV (m : List (Str × Str)) (k v : Str) : List (Str × Str) :=
  if containsKey m k then m.map (fun kv => if kv.1 == k then (k, v) else kv)
  else m ++ [(k, v)]

/-- What one iteration of the main classification loop does with the current
token: panic, return an outcome, record a pair and advance one position, or
record the following token as a value and advance two positions.  This is the
effect of one pass through the `while` body at lib.rs:201-275 (`push` covers
`result.insert(...)` with `i += 1`; `pushNext` covers
`result.insert(key, next_arg)` with the extra `i += 1` at lib.rs:222/252). -/
inductive StepAct where
  | fault
  | stop (r : ParserResult)
  | push (k v : Str)
  | pushNext (k : Str)
deriving Repr, DecidableEq

/-- The value-resolution block shared verbatim by the long-option branch
(lib.rs:209-235) and the short-option branch (lib.rs:239-265): `next?` is the
lookahead token `args[i + 1]` when `i + 1 < args.len()`.  An empty value
segment requires a successful `search`; a value-taking command then demands a
following token that does not start with a dash; a non-empty value segment
only requires `check`. -/
def handleTok (cmds : List Command) (arg key value : Str)
    (next? : Option Str) : StepAct :=
  if value.isEmpty then
    match Parser.search cmds key with
    | some c =>
      if c.takes_input then
        match next? with
        | none =>
          .stop (ParserResult.from_error ("Invalid argument: ".toList ++ arg))
        | some next =>
          if strStarts ("--".toList) next || strStarts ("-".toList) next then
            .stop (ParserResult.from_error ("Invalid argument: ".toList ++ arg))
          else .pushNext key
      else .push key ("present".toList)
    | none =>
      .stop (ParserResult.from_error ("Invalid argument: ".toList ++ arg))
  else
    if Parser.check cmds key then .push key value
    else .stop (ParserResult.from_error ("Invalid argument: ".toList ++ arg))

/-- Classification of one token by the main loop (lib.rs:204-272): an exact
help token records `help → present`; a `--` token goes through
`parse_long_arg` and the shared value block; a `-` token goes through
`parse_short_arg` (which may panic) and the same block; any other token goes
through `parse_flag` (which may panic) and a bare `check`. -/
def stepClassify (cmds : List Command) (arg : Str) (next? : Option Str) :
    StepAct :=
  if arg == "-h".toList || arg == "--help".toList then
    .push ("help".toList) ("present".toList)
  else if strStarts ("--".toList) arg then
    handleTok cmds arg (Parser.parse_long_arg arg).1
      (Parser.parse_long_arg arg).2 next?
  else if strStarts ("-".toList) arg then
    match Parser.parse_short_arg cmds arg with
    | none => .fault
    | some kv => handleTok cmds arg kv.1 kv.2 next?
  else
    match Parser.parse_flag arg with
    | none => .fault
    | some flag =>
      if Parser.check cmds flag then .push flag ("present".toList)
      else
        .stop (ParserResult.from_error ("Invalid argument: ".toList ++ arg))

/-- The main classification loop of `Parser::parse` (lib.rs:198-281),
consuming the token list with the accumulated result map, including the
post-loop `help`-key guard at lib.rs:277-279.  `none` models a Rust panic
inside `parse_short_arg` or `parse_flag`.  The `(.pushNext _, [])` arm is
unreachable: `pushNext` is only produced when the lookahead `rest.head?` is
`some`. -/
def mainLoop (cmds : List Command) :
    List Str → List (Str × Str) → Option ParserResult
  | [], result =>
    if containsKey result ("help".toList) then
      some (ParserResult.from_error ("Invalid usage of help flag".toList))
    else some (ParserResult.from_map result)
  | arg :: rest, result =>
    match stepClassify cmds arg rest.head? with
    | .fault => none
    | .stop r => some r
    | .push k v => mainLoop cmds rest (insertKV result k v)
    | .pushNext k =>
      match rest with
      | next :: rest2 => mainLoop cmds rest2 (insertKV result k next)
      | [] => none

/-- The body of `Parser::parse` (lib.rs:121-282) after `self.input` has been
assigned: tokenize `p.input`; push the pending token unconditionally
(lib.rs:140); run the help pre-scan over that list (lib.rs:145-191); when no
help token is present, push the pending token a second time if it is
non-empty (lib.rs:193-195) and run the main classification loop. -/
def parseCore (p : Parser) : Option ParserResult :=
  let scanned := tokenizeArgs p.input
  let args := scanned.1 ++ [scanned.2]
  if args.contains ("--help".toList) || args.contains ("-h".toList) then
    match args with
    | [_] => some (ParserResult.from_help (renderGlobal p))
    | [_, a1] =>
      match Parser.search p.commands a1 with
      | some c => some (ParserResult.from_help (renderSingle c))
      | none =>
        some (ParserResult.from_error ("Invalid flag/option: ".toList ++ a1))
    | _ =>
      some (ParserResult.from_error ("Invalid usage of help flag up top".toList))
  else
    let args2 := if scanned.2.isEmpty then args else args ++ [scanned.2]
    mainLoop p.commands args2 []

/-- Mirrors `Parser::parse` as a state transformer: the method mutates
`self.input` (lib.rs:122) and returns a `ParserResult`; the pair carries the
updated struct and the outcome (`none` for a panic). -/
def Parser.parse (p : Parser) (input : Str) : Parser × Option ParserResult :=
  let p2 := { p with input := input }
  (p2, parseCore p2)

/-- The outcome of one `parse` call, discarding the updated struct. -/
def parseOut (p : Parser) (input : Str) : Option ParserResult :=
  (p.parse input).2

/-- The parser of the library's own test (lib.rs:330-337): options `name`
(short `n`, takes a value) and `age` (short `a`, takes a value). -/
def pNA : Parser :=
  ((Parser.new ("test".toList) ("A test program".toList)
      ("test -n=\"John Doe\" --age=20".toList)).add_command
    ("name".toList) true ("n".toList) ("The name of the person".toList)).add_command
    ("age".toList) true ("a".toList) ("The age of the person".toList)

/-- A parser with a single value-less option `verbose` with short name `v`. -/
def pV : Parser :=
  (Parser.new ("test".toList) ("d".toList) ("e".toList)).add_command
    ("verbose".toList) false ("v".toList) ("verbosity".toList)

/-- A parser with a single value-less option whose long name is `help`. -/
def pH : Parser :=
  (Parser.new ("test".toList) ("d".toList) ("e".toList)).add_command
    ("help".toList) false ("x".toList) ("help option".toList)

/-- A parser with a single value-less option whose long name is `ame`. -/
def pAme : Parser :=
  (Parser.new ("test".toList) ("d".toList) ("e".toList)).add_command
    ("ame".toList) false ("m".toList) ("an odd name".toList)

/-! ### Helper lemmas about the embedded operations -/

/-- A result map contains a key exactly when some stored pair carries it. -/
theorem containsKey_true_iff {m : List (Str × Str)} {k : Str} :
    containsKey m k = true ↔ ∃ kv ∈ m, kv.1 = k := by
  simp [containsKey]

/-- A result map misses a key exactly when no stored pair carries it. -/
theorem containsKey_false_iff {m : List (Str × Str)} {k : Str} :
    containsKey m k = false ↔ ∀ kv ∈ m, kv.1 ≠ k := by
  simp [containsKey]

/-- Every pair of an updated map was already present or is the new pair. -/
theorem mem_insertKV {m : List (Str × Str)} {k v : Str} {kv : Str × Str}
    (h : kv ∈ insertKV m k v) : kv ∈ m ∨ kv = (k, v) := by
  unfold insertKV at h
  split at h
  · rcases List.mem_map.mp h with ⟨p, hp, he⟩
    by_cases hpk : (p.1 == k) = true
    · right
      rw [if_pos hpk] at he
      exact he.symm
    · left
      rw [if_neg hpk] at he
      rw [← he]
      exact hp
  · rcases List.mem_append.mp h with h | h
    · left; exact h
    · right
      simpa using h

/-- A key predicate holding on a map and on the inserted key holds on the
updated map. -/
theorem insertKV_inv (P : Str → Prop) {m : List (Str × Str)} {k v : Str}
    (hm : ∀ kv ∈ m, P kv.1) (hk : P k) :
    ∀ kv ∈ insertKV m k v, P kv.1 := by
  intro kv hkv
  rcases mem_insertKV hkv with h | h
  · exact hm kv h
  · rw [h]
    exact hk

/-- A successful `search` returns a registered command matched by its long or
short name. -/
theorem search_eq_some {cmds : List Command} {a : Str} {c : Command}
    (h : Parser.search cmds a = some c) :
    c ∈ cmds ∧ (a = c.long ∨ a = c.short) := by
  induction cmds with
  | nil => simp [Parser.search] at h
  | cons d rest ih =>
    simp only [Parser.search] at h
    split at h
    · rename_i hcond
      have hdc := Option.some.inj h
      subst hdc
      simp only [Bool.or_eq_true, beq_iff_eq] at hcond
      exact ⟨List.mem_cons_self _ _, hcond⟩
    · have hr := ih h
      exact ⟨List.mem_cons_of_mem _ hr.1, hr.2⟩

/-- A successful `check` means some registered command is matched by its long
or short name. -/
theorem check_eq_true {cmds : List Command} {a : Str}
    (h : Parser.check cmds a = true) :
    ∃ c ∈ cmds, a = c.long ∨ a = c.short := by
  unfold Parser.check at h
  rw [List.any_eq_true] at h
  rcases h with ⟨c, hc, hca⟩
  simp only [Bool.or_eq_true, beq_iff_eq] at hca
  exact ⟨c, hc, hca⟩

/-- Two strings differing at index 8 stay different after extending the first
by any suffix. -/
theorem append_ne_of_ne_at8 {a t : Str} (x : Str) (hlen : 8 < a.length)
    (hd : a[8]? ≠ t[8]?) : a ++ x ≠ t := by
  intro h
  have h8 : (a ++ x)[8]? = t[8]? := by rw [h]
  rw [List.getElem?_append_left hlen] at h8
  exact hd h8

/-- No `Invalid argument` message coincides with the post-loop help-guard
message. -/
theorem invalid_argument_ne_help_guard (x : Str) :
    ("Invalid argument: ".toList ++ x) ≠ "Invalid usage of help flag".toList :=
  append_ne_of_ne_at8 x (by decide) (by decide)

/-- No `Invalid flag/option` message coincides with the post-loop help-guard
message. -/
theorem invalid_flag_ne_help_guard (x : Str) :
    ("Invalid flag/option: ".toList ++ x) ≠ "Invalid usage of help flag".toList :=
  append_ne_of_ne_at8 x (by decide) (by decide)

/-- The three `ParserResult` constructors are injective and mutually
distinct; injectivity of `from_error`. -/
theorem from_error_inj {a b : Str}
    (h : ParserResult.from_error a = ParserResult.from_error b) : a = b := by
  simpa [ParserResult.from_error, ParserResult.mk.injEq] using h

/-- Injectivity of `from_map`. -/
theorem from_map_inj {a b : List (Str × Str)}
    (h : ParserResult.from_map a = ParserResult.from_map b) : a = b := by
  simpa [ParserResult.from_map, ParserResult.mk.injEq] using h

/-- An error outcome is never a map outcome. -/
theorem from_error_ne_from_map (a : Str) (m : List (Str × Str)) :
    ParserResult.from_error a ≠ ParserResult.from_map m := by
  simp [ParserResult.from_error, ParserResult.from_map]

/-- A help outcome is never a map outcome. -/
theorem from_help_ne_from_map (a : Str) (m : List (Str × Str)) :
    ParserResult.from_help a ≠ ParserResult.from_map m := by
  simp [ParserResult.from_help, ParserResult.from_map]

/-- A help outcome is never an error outcome. -/
theorem from_help_ne_from_error (a b : Str) :
    ParserResult.from_help a ≠ ParserResult.from_error b := by
  simp [ParserResult.from_help, ParserResult.from_error]

/-- A false `contains` check excludes the element from the list. -/
theorem contains_false_forall {l : List Str} {x : Str}
    (h : l.contains x = false) : ∀ a ∈ l, a ≠ x := by
  intro a ha he
  subst he
  rw [List.contains, List.elem_eq_mem, decide_eq_false_iff_not] at h
  exact h ha

/-- A `stop` directive of the shared value block always carries the
`Invalid argument` error for the current token. -/
theorem handleTok_stop {cmds : List Command} {arg key value : Str}
    {x : Option Str} {r : ParserResult}
    (h : handleTok cmds arg key value x = .stop r) :
    r = ParserResult.from_error ("Invalid argument: ".toList ++ arg) := by
  unfold handleTok at h
  split at h
  · split at h
    · split at h
      · split at h
        · exact (StepAct.stop.inj h).symm
        · split at h
          · exact (StepAct.stop.inj h).symm
          · simp at h
      · simp at h
    · exact (StepAct.stop.inj h).symm
  · split at h
    · simp at h
    · exact (StepAct.stop.inj h).symm

/-- A `push` directive of the shared value block records the looked-up key,
which matches a registered command. -/
theorem handleTok_push {cmds : List Command} {arg key value : Str}
    {x : Option Str} {k v : Str}
    (h : handleTok cmds arg key value x = .push k v) :
    k = key ∧ ∃ c ∈ cmds, key = c.long ∨ key = c.short := by
  unfold handleTok at h
  split at h
  · split at h
    · rename_i c hsearch
      split at h
      · split at h
        · simp at h
        · split at h
          · simp at h
          · simp at h
      · have hs := search_eq_some hsearch
        exact ⟨(StepAct.push.inj h).1.symm, c, hs.1, hs.2⟩
    · simp at h
  · split at h
    · rename_i hcheck
      exact ⟨(StepAct.push.inj h).1.symm, check_eq_true hcheck⟩
    · simp at h

/-- A `pushNext` directive of the shared value block records the looked-up
key, which matches a registered command. -/
theorem handleTok_pushNext {cmds : List Command} {arg key value : Str}
    {x : Option Str} {k : Str}
    (h : handleTok cmds arg key value x = .pushNext k) :
    k = key ∧ ∃ c ∈ cmds, key = c.long ∨ key = c.short := by
  unfold handleTok at h
  split at h
  · split at h
    · rename_i c hsearch
      split at h
      · split at h
        · simp at h
        · split at h
          · simp at h
          · have hs := search_eq_some hsearch
            exact ⟨(StepAct.pushNext.inj h).symm, c, hs.1, hs.2⟩
      · simp at h
    · simp at h
  · split at h
    · simp at h
    · simp at h

/-- A `stop` directive of the token classifier always carries the
`Invalid argument` error for the current token. -/
theorem stepClassify_stop {cmds : List Command} {arg : Str} {x : Option Str}
    {r : ParserResult} (h : stepClassify cmds arg x = .stop r) :
    r = ParserResult.from_error ("Invalid argument: ".toList ++ arg) := by
  unfold stepClassify at h
  split at h
  · simp at h
  · split at h
    · exact handleTok_stop h
    · split at h
      · split at h
        · simp at h
        · exact handleTok_stop h
      · split at h
        · simp at h
        · split at h
          · simp at h
          · exact (StepAct.stop.inj h).symm

/-- When the current token is not a help token, a `push` directive of the
classifier records a key matching a registered command. -/
theorem stepClassify_push {cmds : List Command} {arg : Str} {x : Option Str}
    {k v : Str} (hne : arg ≠ "-h".toList ∧ arg ≠ "--help".toList)
    (h : stepClassify cmds arg x = .push k v) :
    ∃ c ∈ cmds, k = c.long ∨ k = c.short := by
  unfold stepClassify at h
  split at h
  · rename_i h1
    simp only [Bool.or_eq_true, beq_iff_eq] at h1
    rcases h1 with h1 | h1
    · exact absurd h1 hne.1
    · exact absurd h1 hne.2
  · split at h
    · rcases handleTok_push h with ⟨hk, hreg⟩
      rw [hk]
      exact hreg
    · split at h
      · split at h
        · simp at h
        · rcases handleTok_push h with ⟨hk, hreg⟩
          rw [hk]
          exact hreg
      · split at h
        · simp at h
        · split at h
          · rename_i hcheck
            have h1 := (StepAct.push.inj h).1
            exact h1 ▸ check_eq_true hcheck
          · simp at h

/-- A `pushNext` directive of the classifier records a key matching a
registered command. -/
theorem stepClassify_pushNext {cmds : List Command} {arg : Str}
    {x : Option Str} {k : Str} (h : stepClassify cmds arg x = .pushNext k) :
    ∃ c ∈ cmds, k = c.long ∨ k = c.short := by
  unfold stepClassify at h
  split at h
  · simp at h
  · split at h
    · rcases handleTok_pushNext h with ⟨hk, hreg⟩
      rw [hk]
      exact hreg
    · split at h
      · split at h
        · simp at h
        · rcases handleTok_pushNext h with ⟨hk, hreg⟩
          rw [hk]
          exact hreg
      · split at h
        · simp at h
        · split at h
          · simp at h
          · simp at h

/-- Shared shape of the `Invalid argument` leaves of the main-loop walk. -/
theorem invalidArg_leaf (cmds : List Command) (arg : Str) :
    (∀ m, (some (ParserResult.from_error ("Invalid argument: ".toList ++ arg)) :
        Option ParserResult) = some (ParserResult.from_map m) →
      containsKey m ("help".toList) = false ∧
      ∀ kv ∈ m, ∃ c ∈ cmds, kv.1 = c.long ∨ kv.1 = c.short)
    ∧ ((∀ c ∈ cmds, c.long ≠ "help".toList ∧ c.short ≠ "help".toList) →
      (some (ParserResult.from_error ("Invalid argument: ".toList ++ arg)) :
        Option ParserResult) ≠
      some (ParserResult.from_error ("Invalid usage of help flag".toList))) := by
  constructor
  · intro m hm
    exact absurd (Option.some.inj hm) (from_error_ne_from_map _ m)
  · intro _ hcon
    exact invalid_argument_ne_help_guard arg (from_error_inj (Option.some.inj hcon))

/-- The empty-token-list case of the main-loop invariant: the post-loop guard
either rejects a map holding the `help` key or returns the accumulated map. -/
theorem mainLoop_inv_nil (cmds : List Command) (result : List (Str × Str))
    (hinv : ∀ kv ∈ result, ∃ c ∈ cmds, kv.1 = c.long ∨ kv.1 = c.short) :
    ∀ out, mainLoop cmds [] result = out →
    (∀ m, out = some (ParserResult.from_map m) →
        containsKey m ("help".toList) = false ∧
        ∀ kv ∈ m, ∃ c ∈ cmds, kv.1 = c.long ∨ kv.1 = c.short)
    ∧ ((∀ c ∈ cmds, c.long ≠ "help".toList ∧ c.short ≠ "help".toList) →
        out ≠ some (ParserResult.from_error ("Invalid usage of help flag".toList))) := by
  intro out heq
  simp only [mainLoop] at heq
  split at heq
  · rename_i hck
    subst heq
    constructor
    · intro m hm
      exact absurd (Option.some.inj hm) (from_error_ne_from_map _ m)
    · intro hcmds _
      rcases containsKey_true_iff.mp hck with ⟨kv, hkv, hkhelp⟩
      rcases hinv kv hkv with ⟨c, hc, hor⟩
      rcases hor with h | h
      · exact (hcmds c hc).1 (by rw [← h]; exact hkhelp)
      · exact (hcmds c hc).2 (by rw [← h]; exact hkhelp)
  · rename_i hck
    subst heq
    constructor
    · intro m hm
      have hrm : result = m := from_map_inj (Option.some.inj hm)
      subst hrm
      have hck2 : containsKey result ("help".toList) = false := by
        simpa using hck
      exact ⟨hck2, hinv⟩
    · intro _ hcon
      exact from_error_ne_from_map _ _ (Option.some.inj hcon).symm

/-- Fused invariant of the main classification loop (lib.rs:198-281), by
induction on an upper bound of the token-list length (the loop consumes one
or two tokens per step).  When no token is a help token and every recorded
key matches a registered command: (a) a map outcome contains no `help` key
and only keys matching registered commands; (b) when additionally no
registered command is named `help`, the loop never produces the post-loop
guard error `Invalid usage of help flag`. -/
theorem mainLoop_inv (cmds : List Command) :
    ∀ (n : Nat) (args : List Str), args.length ≤ n →
    ∀ result : List (Str × Str),
    (∀ a ∈ args, a ≠ "-h".toList ∧ a ≠ "--help".toList) →
    (∀ kv ∈ result, ∃ c ∈ cmds, kv.1 = c.long ∨ kv.1 = c.short) →
    ∀ out, mainLoop cmds args result = out →
    (∀ m, out = some (ParserResult.from_map m) →
        containsKey m ("help".toList) = false ∧
        ∀ kv ∈ m, ∃ c ∈ cmds, kv.1 = c.long ∨ kv.1 = c.short)
    ∧ ((∀ c ∈ cmds, c.long ≠ "help".toList ∧ c.short ≠ "help".toList) →
        out ≠ some (ParserResult.from_error ("Invalid usage of help flag".toList))) := by
  intro n
  induction n with
  | zero =>
    intro args hlen result htok hinv out heq
    have hargs : args = [] := by
      cases args with
      | nil => rfl
      | cons a t => simp at hlen
    subst hargs
    exact mainLoop_inv_nil cmds result hinv out heq
  | succ n ih =>
    intro args hlen result htok hinv out heq
    cases args with
    | nil => exact mainLoop_inv_nil cmds result hinv out heq
    | cons arg rest =>
      have hrest : rest.length ≤ n := by
        simp only [List.length_cons] at hlen
        omega
      have htokr : ∀ a ∈ rest, a ≠ "-h".toList ∧ a ≠ "--help".toList :=
        fun a ha => htok a (List.mem_cons_of_mem _ ha)
      have htokarg := htok arg (List.mem_cons_self _ _)
      simp only [mainLoop] at heq
      split at heq
      · subst heq
        constructor
        · intro m hm
          exact absurd hm (by simp)
        · intro _ hcon
          exact absurd hcon (by simp)
      · rename_i r hstep
        subst heq
        have hr := stepClassify_stop hstep
        subst hr
        exact invalidArg_leaf cmds arg
      · rename_i k v hstep
        exact ih rest hrest _ htokr
          (insertKV_inv (fun s => ∃ c ∈ cmds, s = c.long ∨ s = c.short) hinv
            (stepClassify_push htokarg hstep)) out heq
      · rename_i k hstep
        cases rest with
        | nil =>
          subst heq
          constructor
          · intro m hm
            exact absurd hm (by simp)
          · intro _ hcon
            exact absurd hcon (by simp)
        | cons next rest2 =>
          have hrest2 : rest2.length ≤ n := by
            simp only [List.length_cons] at hrest
            omega
          exact ih rest2 hrest2 _
            (fun a ha => htokr a (List.mem_cons_of_mem _ ha))
            (insertKV_inv (fun s => ∃ c ∈ cmds, s = c.long ∨ s = c.short) hinv
              (stepClassify_pushNext hstep)) out heq

/-- A list equal to `[a, b]` after appending one element is `[a]` with `b`
appended. -/
theorem append_singleton_eq_pair {l : List Str} {x a b : Str}
    (h : l ++ [x] = [a, b]) : l = [a] ∧ x = b := by
  rcases l with _ | ⟨c, t⟩
  · simp at h
  · rcases t with _ | ⟨d, t2⟩
    · simp_all
    · simp at h

/-- Keys of a map outcome of `parseCore`: no `help` key, and every key
matches a registered command (by long or short name). -/
theorem parseCore_values_keys (q : Parser) (m : List (Str × Str))
    (hres : parseCore q = some (ParserResult.from_map m)) :
    containsKey m ("help".toList) = false ∧
    ∀ kv ∈ m, ∃ c ∈ q.commands, kv.1 = c.long ∨ kv.1 = c.short := by
  simp only [parseCore] at hres
  split at hres
  · split at hres
    · exact absurd (Option.some.inj hres) (from_help_ne_from_map _ _)
    · split at hres
      · exact absurd (Option.some.inj hres) (from_help_ne_from_map _ _)
      · exact absurd (Option.some.inj hres) (from_error_ne_from_map _ _)
    · exact absurd (Option.some.inj hres) (from_error_ne_from_map _ _)
  · rename_i hc
    simp only [Bool.or_eq_true, not_or, Bool.not_eq_true] at hc
    have htokA : ∀ a ∈ (tokenizeArgs q.input).1 ++ [(tokenizeArgs q.input).2],
        a ≠ "-h".toList ∧ a ≠ "--help".toList :=
      fun a ha => ⟨contains_false_forall hc.2 a ha,
                   contains_false_forall hc.1 a ha⟩
    split at hres
    · exact (mainLoop_inv q.commands _ _ le_rfl [] htokA (by simp) _ hres).1 m rfl
    · have htokB : ∀ a ∈ ((tokenizeArgs q.input).1 ++ [(tokenizeArgs q.input).2])
          ++ [(tokenizeArgs q.input).2],
          a ≠ "-h".toList ∧ a ≠ "--help".toList := by
        intro a ha
        rcases List.mem_append.mp ha with h | h
        · exact htokA a h
        · have hax : a = (tokenizeArgs q.input).2 := by simpa using h
          subst hax
          exact htokA _ (List.mem_append_right _ (by simp))
      exact (mainLoop_inv q.commands _ _ le_rfl [] htokB (by simp) _ hres).1 m rfl

/-- With no registered command named `help`, `parseCore` never produces the
post-loop guard error. -/
theorem parseCore_no_help_guard (q : Parser)
    (hcmds : ∀ c ∈ q.commands, c.long ≠ "help".toList ∧ c.short ≠ "help".toList) :
    parseCore q ≠
      some (ParserResult.from_error ("Invalid usage of help flag".toList)) := by
  intro hcon
  simp only [parseCore] at hcon
  split at hcon
  · split at hcon
    · exact from_help_ne_from_error _ _ (Option.some.inj hcon)
    · split at hcon
      · exact from_help_ne_from_error _ _ (Option.some.inj hcon)
      · exact invalid_flag_ne_help_guard _ (from_error_inj (Option.some.inj hcon))
    · exact absurd (from_error_inj (Option.some.inj hcon)) (by decide)
  · rename_i hc
    simp only [Bool.or_eq_true, not_or, Bool.not_eq_true] at hc
    have htokA : ∀ a ∈ (tokenizeArgs q.input).1 ++ [(tokenizeArgs q.input).2],
        a ≠ "-h".toList ∧ a ≠ "--help".toList :=
      fun a ha => ⟨contains_false_forall hc.2 a ha,
                   contains_false_forall hc.1 a ha⟩
    split at hcon
    · exact ((mainLoop_inv q.commands _ _ le_rfl [] htokA (by simp) _ hcon).2
        hcmds) rfl
    · have htokB : ∀ a ∈ ((tokenizeArgs q.input).1 ++ [(tokenizeArgs q.input).2])
          ++ [(tokenizeArgs q.input).2],
          a ≠ "-h".toList ∧ a ≠ "--help".toList := by
        intro a ha
        rcases List.mem_append.mp ha with h | h
        · exact htokA a h
        · have hax : a = (tokenizeArgs q.input).2 := by simpa using h
          subst hax
          exact htokA _ (List.mem_append_right _ (by simp))
      exact ((mainLoop_inv q.commands _ _ le_rfl [] htokB (by simp) _ hcon).2
        hcmds) rfl

/-- Behaviour of `parseCore` when the pre-scan sees exactly two tokens, one
of which is a help token (lib.rs:162-184): the SECOND token is looked up,
whichever position the help token occupies. -/
theorem parseCore_two_tokens_help (q : Parser) (a0 a1 : Str)
    (htok : tokenize q.input = [a0, a1])
    (hhelp : (a0 == "--help".toList || a1 == "--help".toList ||
              a0 == "-h".toList || a1 == "-h".toList) = true) :
    parseCore q =
      match Parser.search q.commands a1 with
      | some c => some (ParserResult.from_help (renderSingle c))
      | none =>
        some (ParserResult.from_error ("Invalid flag/option: ".toList ++ a1)) := by
  unfold tokenize at htok
  obtain ⟨hfl, hcur⟩ := append_singleton_eq_pair htok
  have hcond : (([a0, a1].contains ("--help".toList) ||
      [a0, a1].contains ("-h".toList)) = true) := by
    simp only [Bool.or_eq_true, beq_iff_eq] at hhelp
    rcases hhelp with ((h | h) | h) | h <;> subst h <;>
      simp [List.contains, List.elem_eq_mem]
  simp only [parseCore, hfl, hcur, List.singleton_append]
  rw [if_pos hcond]

/-! ### Claim theorems -/

/-- C1: with options `name` and `age` registered (both taking values),
parsing `--name=John --age 20` does NOT return the claimed mapping: the
duplicated trailing-token push (lib.rs:140 and lib.rs:193-195) re-feeds the
final token `20` to the classification loop, which rejects it with
`Invalid argument: 20`.  The second conjunct shows the token list the help
pre-scan saw was the expected three tokens. -/
theorem parse_name_age_example :
    parseOut pNA ("--name=John --age 20".toList) =
      some (ParserResult.from_error ("Invalid argument: 20".toList)) ∧
    tokenize ("--name=John --age 20".toList) =
      ["--name=John".toList, "--age".toList, "20".toList] :=
  ⟨by decide, by decide⟩

/-- C2: `parse` is not panic-free.  A lone `-` token reaches
`parse_short_arg`, whose slice `&arg[1..=1]` is out of bounds (modelled as
the `none` outcome); an input ending in a space leaves an empty trailing
token that reaches `parse_flag`, whose slice `&arg[1..]` is out of bounds. -/
theorem parse_malformed_faults :
    parseOut pNA ("-".toList) = none ∧
    parseOut pNA ("--name John ".toList) = none :=
  ⟨by decide, by decide⟩

/-- C3: the tokenizer does NOT produce zero tokens for an empty or
all-whitespace input: the unconditional push at lib.rs:140 yields one empty
token, and parsing such an input faults in `parse_flag` (out-of-range slice
on the empty token) instead of returning an empty success mapping. -/
theorem tokenize_empty_not_zero :
    tokenize ("".toList) = [("".toList)] ∧
    tokenize ("   ".toList) = [("".toList)] ∧
    parseOut pNA ("".toList) = none :=
  ⟨by decide, by decide, by decide⟩

/-- C4 (amended): whenever `parse` returns the map outcome, every key of the
mapping equals the `long` name OR the `short` name of some registered
option (short names leak through, e.g. `--v`), and the key `help` never
occurs in the mapping. -/
theorem parse_values_keys (p : Parser) (input : Str) (m : List (Str × Str))
    (hres : parseOut p input = some (ParserResult.from_map m)) :
    containsKey m ("help".toList) = false ∧
    ∀ kv ∈ m, ∃ c ∈ p.commands, kv.1 = c.long ∨ kv.1 = c.short :=
  parseCore_values_keys { p with input := input } m hres

/-- C4 witness: the amended invariant applied to the concrete run
`--v` on the `verbose`/`v` configuration. -/
theorem parse_values_keys_witness :
    containsKey [("v".toList, "present".toList)] ("help".toList) = false ∧
    ∀ kv ∈ [(("v".toList), ("present".toList))],
      ∃ c ∈ pV.commands, kv.1 = c.long ∨ kv.1 = c.short :=
  parse_values_keys pV ("--v".toList) [("v".toList, "present".toList)]
    (by decide)

/-- C4 counterexample: parsing `--v` on the `verbose`/`v` configuration
succeeds with the mapping keyed by the SHORT name `v`, which is not the
`long` name of any registered option — refuting the claim that every key of
a successful mapping is a registered `long_name`. -/
theorem values_key_is_short_name :
    parseOut pV ("--v".toList) =
      some (ParserResult.from_map [("v".toList, "present".toList)]) ∧
    ∀ c ∈ pV.commands, ("v".toList) ≠ c.long :=
  ⟨by decide, by decide⟩

/-- C5: tokenizing `-n="John Doe" --age=20 -h` yields exactly the three
tokens `-n=John Doe`, `--age=20`, `-h`: the quote characters are elided and
the space inside the quoted span stays inside the first token. -/
theorem tokenize_quoted_example :
    tokenize ("-n=\"John Doe\" --age=20 -h".toList) =
      ["-n=John Doe".toList, "--age=20".toList, "-h".toList] := by decide

/-- C6 (amended): when the input tokenizes to exactly two tokens one of
which is exactly `--help` or `-h`, `parse` looks up the SECOND token
(`args[1]`, lib.rs:163) — not "the other token": if the second token matches
a registered option, the single-option help is returned, otherwise the error
`Invalid flag/option: <second token>`.  When the help token is the second
token, the help token itself is looked up. -/
theorem parse_two_tokens_help_second (p : Parser) (input a0 a1 : Str)
    (htok : tokenize input = [a0, a1])
    (hhelp : (a0 == "--help".toList || a1 == "--help".toList ||
              a0 == "-h".toList || a1 == "-h".toList) = true) :
    parseOut p input =
      match Parser.search p.commands a1 with
      | some c => some (ParserResult.from_help (renderSingle c))
      | none =>
        some (ParserResult.from_error ("Invalid flag/option: ".toList ++ a1)) :=
  parseCore_two_tokens_help { p with input := input } a0 a1 htok hhelp

/-- C6 witness: `--help name` on the test configuration renders the
single-option help for `name`. -/
theorem parse_two_tokens_help_second_witness :
    parseOut pNA ("--help name".toList) =
      some (ParserResult.from_help (renderSingle
        ⟨"name".toList, "n".toList, true, "The name of the person".toList⟩)) := by
  have h := parse_two_tokens_help_second pNA ("--help name".toList)
    ("--help".toList) ("name".toList) (by decide) (by decide)
  exact h.trans (by decide)

/-- C6 counterexample: `name --help`, where `name` is a registered option
and the help token is second, returns `Invalid flag/option: --help` instead
of the claimed single-option help for `name`. -/
theorem help_second_token_counterexample :
    parseOut pNA ("name --help".toList) =
      some (ParserResult.from_error ("Invalid flag/option: --help".toList)) ∧
    Parser.check pNA.commands ("name".toList) = true :=
  ⟨by decide, by decide⟩

/-- C7 (amended): a bare word (no dash prefix) reached by the main loop is
NOT matched directly against the option names: `parse_flag` strips its first
character unconditionally (two characters only for a `--` prefix, impossible
here), and the stripped remainder is looked up — recorded with value
`present` when it matches a registered long or short name, otherwise the
error `Invalid argument: <token>` is returned. -/
theorem mainLoop_bare_word (cmds : List Command) (arg : Str)
    (rest : List Str) (result : List (Str × Str))
    (h1 : (arg == "-h".toList || arg == "--help".toList) = false)
    (h2 : strStarts ("--".toList) arg = false)
    (h3 : strStarts ("-".toList) arg = false)
    (h4 : arg ≠ []) :
    mainLoop cmds (arg :: rest) result =
      (if Parser.check cmds (arg.drop 1) then
        mainLoop cmds rest (insertKV result (arg.drop 1) ("present".toList))
      else
        some (ParserResult.from_error ("Invalid argument: ".toList ++ arg))) := by
  have hflag : Parser.parse_flag arg = some (arg.drop 1) := by
    unfold Parser.parse_flag
    rw [if_neg (by rw [h2]; decide)]
    cases arg with
    | nil => exact absurd rfl h4
    | cons c t => rfl
  by_cases hch : Parser.check cmds (arg.drop 1) = true
  · have hchT : Parser.check cmds (List.tail arg) = true := by
      rw [← List.drop_one]
      exact hch
    have hstep : stepClassify cmds arg rest.head? =
        StepAct.push (arg.drop 1) ("present".toList) := by
      unfold stepClassify
      rw [if_neg (by rw [h1]; decide), if_neg (by rw [h2]; decide),
        if_neg (by rw [h3]; decide), hflag]
      simp [hchT]
    rw [if_pos hch]
    simp [mainLoop, hstep]
  · have hchT : Parser.check cmds (List.tail arg) = false := by
      rw [← List.drop_one]
      simpa using hch
    have hstep : stepClassify cmds arg rest.head? =
        StepAct.stop
          (ParserResult.from_error ("Invalid argument: ".toList ++ arg)) := by
      unfold stepClassify
      rw [if_neg (by rw [h1]; decide), if_neg (by rw [h2]; decide),
        if_neg (by rw [h3]; decide), hflag]
      simp [hchT]
    rw [if_neg hch]
    simp [mainLoop, hstep]

/-- C7 witness: the amended bare-word rule applied to the token `name` on
the test configuration (where `check` fails on the stripped key `ame`). -/
theorem mainLoop_bare_word_witness :
    mainLoop pNA.commands [("name".toList)] [] =
      (if Parser.check pNA.commands (("name".toList).drop 1) then
        mainLoop pNA.commands []
          (insertKV [] (("name".toList).drop 1) ("present".toList))
      else
        some (ParserResult.from_error
          ("Invalid argument: ".toList ++ "name".toList))) :=
  mainLoop_bare_word pNA.commands ("name".toList) [] []
    (by decide) (by decide) (by decide) (by decide)

/-- C7 counterexample: the bare word `name` equals a registered option's
long name, yet `parse` rejects it (`parse_flag` stripped it to `ame`); with
an option named `ame` registered instead, the same input succeeds and
records the key `ame`. -/
theorem bare_word_counterexample :
    parseOut pNA ("name".toList) =
      some (ParserResult.from_error ("Invalid argument: name".toList)) ∧
    Parser.check pNA.commands ("name".toList) = true ∧
    parseOut pAme ("name".toList) =
      some (ParserResult.from_map [("ame".toList, "present".toList)]) :=
  ⟨by decide, by decide, by decide⟩

/-- C8: parsing `--name` (value-taking option as the only token) returns
exactly `Invalid argument: --name`; and in general, whenever the main loop
meets a `--` token without `=`-value whose key resolves to a value-taking
command and whose following token is missing or starts with a dash, it
returns `Invalid argument: <token>`. -/
theorem parse_missing_value_error :
    (parseOut pNA ("--name".toList) =
      some (ParserResult.from_error ("Invalid argument: --name".toList))) ∧
    ∀ (cmds : List Command) (arg key : Str) (rest : List Str)
      (result : List (Str × Str)) (c : Command),
      (arg == "-h".toList || arg == "--help".toList) = false →
      strStarts ("--".toList) arg = true →
      Parser.parse_long_arg arg = (key, []) →
      Parser.search cmds key = some c →
      c.takes_input = true →
      (rest = [] ∨ ∃ next rest2, rest = next :: rest2 ∧
        strStarts ("-".toList) next = true) →
      mainLoop cmds (arg :: rest) result =
        some (ParserResult.from_error ("Invalid argument: ".toList ++ arg)) := by
  constructor
  · decide
  · intro cmds arg key rest result c h1 h2 hsplit hsearch htakes hnext
    have hk1 : (Parser.parse_long_arg arg).1 = key := by rw [hsplit]
    have hk2 : (Parser.parse_long_arg arg).2 = [] := by rw [hsplit]
    rcases hnext with hnil | ⟨next, rest2, hr, hdash⟩
    · subst hnil
      have hstep : stepClassify cmds arg (none : Option Str) =
          .stop (ParserResult.from_error
            ("Invalid argument: ".toList ++ arg)) := by
        unfold stepClassify handleTok
        rw [if_neg (by rw [h1]; decide), if_pos h2, hk1, hk2]
        simp [hsearch, htakes]
      simp [mainLoop, hstep]
    · subst hr
      have hstep : stepClassify cmds arg (some next) =
          .stop (ParserResult.from_error
            ("Invalid argument: ".toList ++ arg)) := by
        unfold stepClassify handleTok
        rw [if_neg (by rw [h1]; decide), if_pos h2, hk1, hk2]
        have hdash2 : strStarts (['-'] : Str) next = true := hdash
        simp [hsearch, htakes, hdash2]
      simp [mainLoop, hstep]

/-- C8 witness: the general missing-value rule applied to the lone token
`--name` on the test configuration. -/
theorem parse_missing_value_error_witness :
    mainLoop pNA.commands [("--name".toList)] [] =
      some (ParserResult.from_error
        ("Invalid argument: ".toList ++ "--name".toList)) :=
  parse_missing_value_error.2 pNA.commands ("--name".toList) ("name".toList)
    [] [] ⟨"name".toList, "n".toList, true, "The name of the person".toList⟩
    (by decide) (by decide) (by decide) (by decide) (by decide) (Or.inl rfl)

/-- C9: calling `parse` twice in succession with the identical input on the
struct returned by the first call yields the identical outcome; more
strongly, whatever `input` value the struct holds from a prior call has no
effect on the outcome. -/
theorem parse_idempotent (p : Parser) (input : Str) :
    ((p.parse input).1.parse input).2 = (p.parse input).2 ∧
    ∀ prior : Str,
      ({ p with input := prior }.parse input).2 = (p.parse input).2 :=
  ⟨rfl, fun _ => rfl⟩

/-- C9 witness: idempotence at a concrete configuration and input. -/
theorem parse_idempotent_witness :
    ((pNA.parse ("--name=John".toList)).1.parse ("--name=John".toList)).2 =
      (pNA.parse ("--name=John".toList)).2 :=
  (parse_idempotent pNA ("--name=John".toList)).1

/-- C10 (amended): when no registered option is named `help` (by long or
short name), `parse` never returns the post-loop error
`Invalid usage of help flag`.  (With an option named `help` registered the
error is reachable, e.g. through `--help=x` — see the counterexample.) -/
theorem parse_no_help_guard (p : Parser) (input : Str)
    (hcmds : ∀ c ∈ p.commands,
      c.long ≠ "help".toList ∧ c.short ≠ "help".toList) :
    parseOut p input ≠
      some (ParserResult.from_error ("Invalid usage of help flag".toList)) :=
  parseCore_no_help_guard { p with input := input } hcmds

/-- C10 witness: the guard error is impossible for the test configuration
(no option named `help`) on a concrete input. -/
theorem parse_no_help_guard_witness :
    parseOut pNA ("--name=John".toList) ≠
      some (ParserResult.from_error ("Invalid usage of help flag".toList)) :=
  parse_no_help_guard pNA ("--name=John".toList) (by decide)

/-- C10 counterexample: with an option whose long name is `help` registered,
parsing `--help=x` (not an exact help token, so the pre-scan misses it)
inserts the `help` key through the `--key=value` route and the post-loop
guard fires — the error the claim said was unreachable. -/
theorem help_guard_error_reachable :
    parseOut pH ("--help=x".toList) =
      some (ParserResult.from_error ("Invalid usage of help flag".toList)) :=
  by decide
